import Mathlib

/-!
Verification of the placeholder-substitution renderer
(`devops/nginx/render_config.py`).

The source program is embedded shallowly:

* an environment-variable set (`os.environ`) is an association list
  `Env := List (List Char × List Char)` with first-binding lookup and
  insert-only-if-absent extension, mirroring dict semantics;
* the supplementary `.env` loader (lines 17-25 of the source) is
  `processLine` / `loadSupplementaryVariables`;
* the regex scan `re.sub` over the pattern
  `\$\{\{([A-Z_][A-Z0-9_]*)\}\}` with the `replace_var` callback
  (lines 32-45) is `substitute`; the pattern has no productive
  backtracking (the starred class excludes the closing brace), so a
  greedy longest-run scanner is an exact model of the regex engine;
* the output-path derivation (lines 48-52), which uses Python
  `str.replace` (all occurrences), is `deriveOutputPath`.

Recursions that consume a variable number of characters per step are
written with an explicit fuel argument equal to the input length; every
step consumes at least one character, so the fuel never runs out on the
wrapper entry points, and the fuel form keeps every definition
structurally recursive and kernel-evaluable.
-/

/-- Character class `[A-Z_]` of the placeholder pattern's first name
character. -/
def isNameStart (c : Char) : Bool :=
  (decide ('A' ≤ c) && decide (c ≤ 'Z')) || decide (c = '_')

/-- Character class `[A-Z0-9_]` of the placeholder pattern's remaining
name characters. -/
def isNameChar (c : Char) : Bool :=
  (decide ('A' ≤ c) && decide (c ≤ 'Z'))
    || (decide ('0' ≤ c) && decide (c ≤ '9'))
    || decide (c = '_')

/-- ASCII whitespace stripped by Python `str.strip` (the supplementary
files at issue are ASCII; wider Unicode whitespace is out of scope). -/
def isPySpace (c : Char) : Bool :=
  decide (c = ' ') || decide (c = '\t') || decide (c = '\n')
    || decide (c = '\r') || decide (c = '\x0b') || decide (c = '\x0c')

/-- The Environment Variable Set: an association list of key-value
bindings, standing for the `os.environ` dict. -/
abbrev Env := List (List Char × List Char)

/-- Dict lookup `os.environ.get(k)`: the first binding of the key wins
(keys stay unique under insert-only-if-absent extension). -/
def lookupEnv : Env → List Char → Option (List Char)
  | [], _ => none
  | (k, v) :: rest, q => if k = q then some v else lookupEnv rest q

/-- Python `line.strip()`: drop leading and trailing whitespace. -/
def pyStrip (l : List Char) : List Char :=
  ((l.dropWhile isPySpace).reverse.dropWhile isPySpace).reverse

/-- Python `line.split('=', 1)` restricted to lines that contain `'='`:
`none` exactly when the line has no `'='`; otherwise the text before the
first `'='` and the whole remainder after it. -/
def splitFirstEq : List Char → Option (List Char × List Char)
  | [] => none
  | c :: rest =>
    if c = '=' then some ([], rest)
    else
      match splitFirstEq rest with
      | some (k, v) => some (c :: k, v)
      | none => none

/-- Python `line.startswith('#')`. -/
def startsWithHash : List Char → Bool
  | c :: _ => decide (c = '#')
  | [] => false

/-- One iteration of the `.env` reading loop, parsing phase: strip the
line, skip blank lines, comment lines and lines without `'='`, and
otherwise split on the first `'='` (source lines 19-22). -/
def parseLine (line : List Char) : Option (List Char × List Char) :=
  let l := pyStrip line
  if l.isEmpty then none
  else if startsWithHash l then none
  else splitFirstEq l

/-- One iteration of the `.env` reading loop, update phase: a parsed
binding is inserted only when the key is not already present
(source lines 24-25, comment `Don't override existing env vars`). -/
def processLine (env : Env) (line : List Char) : Env :=
  match parseLine line with
  | some (k, v) => if (lookupEnv env k).isSome then env else env ++ [(k, v)]
  | none => env

/-- The `.env` loading loop of `render_template` (source lines 17-25),
over the file presented as a list of lines. -/
def loadSupplementaryVariables (env : Env) (lines : List (List Char)) : Env :=
  lines.foldl processLine env

/-- Reference function for the amended duplicate-key claim: the value of
the FIRST line of the file whose parse yields the requested key. -/
def firstFileValue (lines : List (List Char)) (k : List Char) : Option (List Char) :=
  match lines with
  | [] => none
  | line :: rest =>
    match parseLine line with
    | some (k', v) => if k' = k then some v else firstFileValue rest k
    | none => firstFileValue rest k

/-- The literal text of a placeholder whose name is `nm`: dollar, two
opening braces, the name, two closing braces. -/
def phTextL (nm : List Char) : List Char :=
  '$' :: '{' :: '{' :: (nm ++ ['}', '}'])

/-- Match of the regex `\$\{\{([A-Z_][A-Z0-9_]*)\}\}` anchored at the
head of the text: on success, the captured name and the text after the
match. The starred class excludes the closing brace, so the greedy
longest run is the only candidate and the model is exact. -/
def matchPlaceholder (s : List Char) : Option (List Char × List Char) :=
  match s with
  | a :: b :: c :: d :: rest =>
    if a = '$' ∧ b = '{' ∧ c = '{' ∧ isNameStart d then
      match rest.dropWhile isNameChar with
      | e :: f :: rest3 =>
        if e = '}' ∧ f = '}' then
          some (d :: rest.takeWhile isNameChar, rest3)
        else none
      | _ => none
    else none
  | _ => none

/-- A token of the template as the regex scan sees it: a literal
character outside every match, or a matched placeholder name. -/
inductive Tok : Type where
  | lit (c : Char) : Tok
  | ph (nm : List Char) : Tok
deriving DecidableEq

/-- Fuel-indexed left-to-right non-overlapping scan of the template into
tokens, mirroring the `re.sub` traversal. Fuel `0` is unreachable from
the wrapper except on empty text. -/
def scanAux : Nat → List Char → List Tok
  | 0, s => s.map Tok.lit
  | _ + 1, [] => []
  | n + 1, c :: rest =>
    match matchPlaceholder (c :: rest) with
    | some (nm, rest') => Tok.ph nm :: scanAux n rest'
    | none => Tok.lit c :: scanAux n rest

/-- The token sequence of a template text. -/
def scanTemplate (s : List Char) : List Tok :=
  scanAux s.length s

/-- Fuel-indexed embedding of `re.sub(pattern, replace_var, content)`:
the rendered text paired with the list of missing-variable names printed
to the error stream, in scan order (source lines 32-45). -/
def substituteAux (env : Env) : Nat → List Char → List Char × List (List Char)
  | 0, s => (s, [])
  | _ + 1, [] => ([], [])
  | n + 1, c :: rest =>
    match matchPlaceholder (c :: rest) with
    | some (nm, rest') =>
      let r := substituteAux env n rest'
      match lookupEnv env nm with
      | some v => (v ++ r.1, r.2)
      | none => (phTextL nm ++ r.1, nm :: r.2)
    | none =>
      let r := substituteAux env n rest
      (c :: r.1, r.2)

/-- The substitution operation: rendered text and emitted diagnostics. -/
def substitute (env : Env) (s : List Char) : List Char × List (List Char) :=
  substituteAux env s.length s

/-- Rendering of one token, mirroring the `replace_var` callback: a
literal character passes through; a resolvable placeholder becomes its
value verbatim; an unresolvable one stays as its literal text. -/
def renderTok (env : Env) : Tok → List Char
  | Tok.lit c => [c]
  | Tok.ph nm =>
    match lookupEnv env nm with
    | some v => v
    | none => phTextL nm

/-- The diagnostic contributed by one token: the name of an
unresolvable placeholder, nothing otherwise. -/
def unresolvedName (env : Env) : Tok → Option (List Char)
  | Tok.lit _ => none
  | Tok.ph nm => if (lookupEnv env nm).isSome then none else some nm

/-- Concatenated rendering of a token sequence. -/
def renderAll (env : Env) : List Tok → List Char
  | [] => []
  | t :: rest => renderTok env t ++ renderAll env rest

/-- Diagnostics of a token sequence, in order, one per unresolvable
placeholder occurrence. -/
def diagsOf (env : Env) : List Tok → List (List Char)
  | [] => []
  | t :: rest =>
    match unresolvedName env t with
    | some nm => nm :: diagsOf env rest
    | none => diagsOf env rest

/-- Whether some position of the text starts a well-formed placeholder
match (whether the regex pattern matches some substring). -/
def hasPlaceholder : List Char → Bool
  | [] => false
  | c :: rest => (matchPlaceholder (c :: rest)).isSome || hasPlaceholder rest

/-- Whether a character list is a well-formed placeholder name
`[A-Z_][A-Z0-9_]*`. -/
def validName : List Char → Bool
  | [] => false
  | c :: t => isNameStart c && t.all isNameChar

/-- Fuel-indexed embedding of Python `str.replace(old, '')`: remove
every left-to-right non-overlapping occurrence of `old` in one pass. -/
def replaceMarkerAux (old : List Char) : Nat → List Char → List Char
  | 0, s => s
  | _ + 1, [] => []
  | n + 1, c :: rest =>
    if old.isPrefixOf (c :: rest) && !old.isEmpty then
      replaceMarkerAux old n ((c :: rest).drop old.length)
    else c :: replaceMarkerAux old n rest

/-- Python `s.replace(old, '')` for a nonempty `old`. -/
def replaceMarker (old s : List Char) : List Char :=
  replaceMarkerAux old s.length s

/-- Python substring containment `old in s`. -/
def containsSub (pat : List Char) : List Char → Bool
  | [] => pat.isEmpty
  | c :: rest => pat.isPrefixOf (c :: rest) || containsSub pat rest

/-- The marker `-template` of the output-path derivation. -/
def hyphenMarker : List Char := "-template".toList

/-- The fallback marker `.template` of the output-path derivation. -/
def dotMarker : List Char := ".template".toList

/-- Output-path derivation of `render_template` (source lines 48-52):
an explicit output path wins; otherwise the `-template` marker is
stripped wherever it occurs, else the `.template` marker. -/
def deriveOutputPath (templatePath : List Char) (outputFile : Option (List Char)) : List Char :=
  match outputFile with
  | some p => p
  | none =>
    if containsSub hyphenMarker templatePath then
      replaceMarker hyphenMarker templatePath
    else replaceMarker dotMarker templatePath

/-- Reference function for the amended path-derivation claim: the split
of a text at the FIRST occurrence of `old` — the part before it and the
part after it. -/
def findFirstOcc (old : List Char) : List Char → Option (List Char × List Char)
  | [] => none
  | c :: rest =>
    if old.isPrefixOf (c :: rest) && !old.isEmpty then
      some ([], (c :: rest).drop old.length)
    else
      match findFirstOcc old rest with
      | some (a, b) => some (c :: a, b)
      | none => none

/-- Malformed placeholder sample: lowercase name. -/
def exLower : List Char := ['$', '{', '{', 'f', 'o', 'o', '}', '}']

/-- Malformed placeholder sample: whitespace inside the delimiters. -/
def exSpaces : List Char := ['$', '{', '{', ' ', 'N', 'A', 'M', 'E', ' ', '}', '}']

/-- Malformed placeholder sample: name starting with a digit. -/
def exDigit : List Char := ['$', '{', '{', '1', 'X', '}', '}']

/-! ### Basic list lemmas -/

theorem len_dropWhile_le (p : Char → Bool) :
    ∀ l : List Char, (l.dropWhile p).length ≤ l.length := by
  intro l
  induction l with
  | nil => simp [List.dropWhile]
  | cons c rest ih =>
    simp only [List.dropWhile]
    cases hp : p c
    · simp
    · simpa using Nat.le_trans ih (Nat.le_succ _)

theorem dropWhile_append_of_all {p : Char → Bool} :
    ∀ {t l : List Char}, (∀ x ∈ t, p x = true) →
      (t ++ l).dropWhile p = l.dropWhile p := by
  intro t
  induction t with
  | nil => intro l _; rfl
  | cons c t' ih =>
    intro l h
    have hc : p c = true := h c (List.mem_cons_self _ _)
    simp only [List.cons_append, List.dropWhile, hc]
    exact ih fun x hx => h x (List.mem_cons_of_mem _ hx)

theorem takeWhile_append_of_all {p : Char → Bool} :
    ∀ {t l : List Char}, (∀ x ∈ t, p x = true) →
      (t ++ l).takeWhile p = t ++ l.takeWhile p := by
  intro t
  induction t with
  | nil => intro l _; rfl
  | cons c t' ih =>
    intro l h
    have hc : p c = true := h c (List.mem_cons_self _ _)
    simp only [List.cons_append, List.takeWhile, hc, List.append_eq]
    rw [ih fun x hx => h x (List.mem_cons_of_mem _ hx)]

/-! ### Lemmas about the anchored placeholder match -/

theorem matchPlaceholder_nil : matchPlaceholder [] = none := rfl

theorem matchPlaceholder_some_length {s nm rest'} :
    matchPlaceholder s = some (nm, rest') → rest'.length < s.length := by
  intro h
  match s with
  | [] => simp [matchPlaceholder] at h
  | [a] => simp [matchPlaceholder] at h
  | [a, b] => simp [matchPlaceholder] at h
  | [a, b, c] => simp [matchPlaceholder] at h
  | a :: b :: c :: d :: rest =>
    simp only [matchPlaceholder] at h
    split at h
    · have hlen := len_dropWhile_le isNameChar rest
      split at h
      · rename_i e f rest3 heq
        split at h
        · obtain ⟨rfl, rfl⟩ := Prod.mk.injEq .. ▸ Option.some.injEq .. ▸ h
          rw [heq] at hlen
          simp only [List.length_cons] at hlen ⊢
          omega
        · exact absurd h (by simp)
      · exact absurd h (by simp)
    · exact absurd h (by simp)

theorem matchPlaceholder_phTextL {nm : List Char} (h : validName nm = true)
    (rest : List Char) :
    matchPlaceholder (phTextL nm ++ rest) = some (nm, rest) := by
  cases nm with
  | nil => simp [validName] at h
  | cons d t =>
    simp only [validName, Bool.and_eq_true, List.all_eq_true] at h
    obtain ⟨hd, ht⟩ := h
    have hshape : phTextL (d :: t) ++ rest
        = '$' :: '{' :: '{' :: (d :: (t ++ '}' :: '}' :: rest)) := by
      simp [phTextL]
    rw [hshape]
    have hbr : isNameChar '}' = false := rfl
    have hdw : (t ++ '}' :: '}' :: rest).dropWhile isNameChar
        = '}' :: '}' :: rest := by
      rw [dropWhile_append_of_all ht]; simp [List.dropWhile, hbr]
    have htw : (t ++ '}' :: '}' :: rest).takeWhile isNameChar = t := by
      rw [takeWhile_append_of_all ht]; simp [List.takeWhile, hbr]
    simp [matchPlaceholder, hd, hdw, htw]

/-! ### Scan lemmas -/

theorem scanAux_nil : ∀ n, scanAux n [] = [] := by
  intro n; cases n <;> rfl

theorem substituteAux_nil (env : Env) : ∀ n, substituteAux env n [] = ([], []) := by
  intro n; cases n <;> rfl

theorem scanAux_fuel_irrel :
    ∀ n m (s : List Char), s.length ≤ n → s.length ≤ m →
      scanAux n s = scanAux m s := by
  intro n
  induction n with
  | zero =>
    intro m s hn _
    have : s = [] := List.length_eq_zero.mp (Nat.le_zero.mp hn)
    subst this
    rw [scanAux_nil, scanAux_nil]
  | succ n ih =>
    intro m s hn hm
    cases s with
    | nil => rw [scanAux_nil, scanAux_nil]
    | cons c rest =>
      have hm1 : 0 < m := Nat.lt_of_lt_of_le (by simp) hm
      obtain ⟨m', rfl⟩ : ∃ m', m = m' + 1 :=
        ⟨m - 1, by omega⟩
      cases hmp : matchPlaceholder (c :: rest) with
      | some p =>
        obtain ⟨nm, rest'⟩ := p
        have hlt := matchPlaceholder_some_length hmp
        simp only [List.length_cons] at hn hm hlt
        simp only [scanAux, hmp]
        rw [ih m' rest' (by omega) (by omega)]
      | none =>
        simp only [List.length_cons] at hn hm
        simp only [scanAux, hmp]
        rw [ih m' rest (by omega) (by omega)]

theorem scanTemplate_cons_none {c : Char} {rest : List Char}
    (h : matchPlaceholder (c :: rest) = none) :
    scanTemplate (c :: rest) = Tok.lit c :: scanTemplate rest := by
  simp only [scanTemplate, List.length_cons, scanAux, h]

theorem scanTemplate_of_match {s nm rest'}
    (h : matchPlaceholder s = some (nm, rest')) :
    scanTemplate s = Tok.ph nm :: scanTemplate rest' := by
  cases s with
  | nil => rw [matchPlaceholder_nil] at h; exact absurd h (by simp)
  | cons c rest =>
    have hlt := matchPlaceholder_some_length h
    simp only [List.length_cons] at hlt
    simp only [scanTemplate, List.length_cons, scanAux, h]
    rw [scanAux_fuel_irrel rest.length rest'.length rest' (by omega) (by omega)]

/-! ### Bridge: the substitution equals the rendering of the scan -/

theorem renderAll_map_lit (env : Env) :
    ∀ s : List Char, renderAll env (s.map Tok.lit) = s := by
  intro s
  induction s with
  | nil => rfl
  | cons c rest ih => simp [renderAll, renderTok, ih]

theorem diagsOf_map_lit (env : Env) :
    ∀ s : List Char, diagsOf env (s.map Tok.lit) = [] := by
  intro s
  induction s with
  | nil => rfl
  | cons c rest ih => simp [diagsOf, unresolvedName, ih]

theorem substituteAux_eq_render (env : Env) :
    ∀ n (s : List Char),
      substituteAux env n s
        = (renderAll env (scanAux n s), diagsOf env (scanAux n s)) := by
  intro n
  induction n with
  | zero =>
    intro s
    simp [substituteAux, scanAux, renderAll_map_lit, diagsOf_map_lit]
  | succ n ih =>
    intro s
    cases s with
    | nil => simp [substituteAux, scanAux, renderAll, diagsOf]
    | cons c rest =>
      simp only [substituteAux, scanAux]
      cases hmp : matchPlaceholder (c :: rest) with
      | some p =>
        obtain ⟨nm, rest'⟩ := p
        cases hl : lookupEnv env nm with
        | some v =>
          simp [renderAll, diagsOf, renderTok, unresolvedName, hl, ih rest']
        | none =>
          simp [renderAll, diagsOf, renderTok, unresolvedName, hl, ih rest']
      | none =>
        simp [renderAll, diagsOf, renderTok, unresolvedName, ih rest]

theorem substitute_eq_render (env : Env) (s : List Char) :
    substitute env s
      = (renderAll env (scanTemplate s), diagsOf env (scanTemplate s)) :=
  substituteAux_eq_render env s.length s

/-! ### Environment lookup and loading lemmas -/

theorem lookupEnv_append_of_some {l1 : Env} {k v} (l2 : Env)
    (h : lookupEnv l1 k = some v) :
    lookupEnv (l1 ++ l2) k = some v := by
  induction l1 with
  | nil => simp [lookupEnv] at h
  | cons p rest ih =>
    obtain ⟨k', v'⟩ := p
    simp only [lookupEnv, List.cons_append] at h ⊢
    by_cases hk : k' = k
    · simpa [hk] using h
    · rw [if_neg hk] at h ⊢
      exact ih h

theorem lookupEnv_append_of_none {l1 : Env} {k} (l2 : Env)
    (h : lookupEnv l1 k = none) :
    lookupEnv (l1 ++ l2) k = lookupEnv l2 k := by
  induction l1 with
  | nil => rfl
  | cons p rest ih =>
    obtain ⟨k', v'⟩ := p
    simp only [lookupEnv, List.cons_append] at h ⊢
    by_cases hk : k' = k
    · simp [hk] at h
    · rw [if_neg hk] at h ⊢
      exact ih h

theorem processLine_preserves {env : Env} {k v} (line : List Char)
    (h : lookupEnv env k = some v) :
    lookupEnv (processLine env line) k = some v := by
  unfold processLine
  cases parseLine line with
  | none => exact h
  | some p =>
    obtain ⟨k', v'⟩ := p
    by_cases hs : (lookupEnv env k').isSome
    · simpa [hs] using h
    · simp only [hs, if_false, Bool.false_eq_true]
      exact lookupEnv_append_of_some _ h

theorem loadSupplementaryVariables_preserves {k v} :
    ∀ (lines : List (List Char)) (env : Env),
      lookupEnv env k = some v →
      lookupEnv (loadSupplementaryVariables env lines) k = some v := by
  intro lines
  induction lines with
  | nil => intro env h; exact h
  | cons line rest ih =>
    intro env h
    simp only [loadSupplementaryVariables, List.foldl_cons]
    exact ih (processLine env line) (processLine_preserves line h)

theorem splitFirstEq_of_not_mem :
    ∀ {s : List Char}, ('=' ∉ s) → splitFirstEq s = none := by
  intro s
  induction s with
  | nil => intro _; rfl
  | cons c rest ih =>
    intro h
    have hc : ¬ c = '=' := fun hc => h (hc ▸ List.mem_cons_self _ _)
    have hr : '=' ∉ rest := fun hr => h (List.mem_cons_of_mem _ hr)
    simp only [splitFirstEq, if_neg hc, ih hr]

theorem splitFirstEq_append {k : List Char} (v : List Char)
    (h : '=' ∉ k) :
    splitFirstEq (k ++ '=' :: v) = some (k, v) := by
  induction k with
  | nil => simp [splitFirstEq]
  | cons c rest ih =>
    have hc : ¬ c = '=' := fun hc => h (hc ▸ List.mem_cons_self _ _)
    have hr : '=' ∉ rest := fun hr => h (List.mem_cons_of_mem _ hr)
    simp only [List.cons_append, splitFirstEq, if_neg hc, List.append_eq, ih hr]

theorem lookupEnv_singleton (k' v' k) :
    lookupEnv [(k', v')] k = if k' = k then some v' else none := by
  simp [lookupEnv]

theorem loadSupplementaryVariables_firstFileValue :
    ∀ (lines : List (List Char)) (env : Env) (k : List Char),
      lookupEnv env k = none →
      lookupEnv (loadSupplementaryVariables env lines) k = firstFileValue lines k := by
  intro lines
  induction lines with
  | nil => intro env k h; exact h
  | cons line rest ih =>
    intro env k h
    simp only [loadSupplementaryVariables, List.foldl_cons]
    cases hp : parseLine line with
    | none =>
      have hpl : processLine env line = env := by
        unfold processLine; rw [hp]
      rw [hpl]
      simp only [firstFileValue, hp]
      exact ih env k h
    | some p =>
      obtain ⟨k', v'⟩ := p
      have hpl : processLine env line
          = if (lookupEnv env k').isSome then env else env ++ [(k', v')] := by
        unfold processLine; rw [hp]
      by_cases hk : k' = k
      · subst hk
        have hs : (lookupEnv env k').isSome = false := by rw [h]; rfl
        rw [hpl, hs] at *
        simp only [Bool.false_eq_true, if_false]
        have hl : lookupEnv (env ++ [(k', v')]) k' = some v' := by
          rw [lookupEnv_append_of_none _ h, lookupEnv_singleton, if_pos rfl]
        have := loadSupplementaryVariables_preserves rest (env ++ [(k', v')]) hl
        simp only [loadSupplementaryVariables] at this
        rw [this]
        simp [firstFileValue, hp]
      · have hl : lookupEnv (processLine env line) k = none := by
          rw [hpl]
          by_cases hs : (lookupEnv env k').isSome
          · rw [if_pos hs]; exact h
          · rw [if_neg hs, lookupEnv_append_of_none _ h, lookupEnv_singleton,
              if_neg hk]
        have := ih (processLine env line) k hl
        simp only [loadSupplementaryVariables] at this
        rw [this]
        simp [firstFileValue, hp, hk]

/-! ### Marker-replacement lemmas -/

theorem replaceMarkerAux_fuel_irrel (old : List Char) :
    ∀ n m (s : List Char), s.length ≤ n → s.length ≤ m →
      replaceMarkerAux old n s = replaceMarkerAux old m s := by
  intro n
  induction n with
  | zero =>
    intro m s hn _
    have : s = [] := List.length_eq_zero.mp (Nat.le_zero.mp hn)
    subst this
    cases m <;> rfl
  | succ n ih =>
    intro m s hn hm
    cases s with
    | nil => cases m <;> rfl
    | cons c rest =>
      obtain ⟨m', rfl⟩ : ∃ m', m = m' + 1 :=
        ⟨m - 1, by simp only [List.length_cons] at hm; omega⟩
      simp only [List.length_cons] at hn hm
      simp only [replaceMarkerAux]
      by_cases hcond : (old.isPrefixOf (c :: rest) && !old.isEmpty) = true
      · obtain ⟨h1, h2⟩ : old.isPrefixOf (c :: rest) = true ∧ !old.isEmpty = true := by
          simpa using hcond
        have hpos : 0 < old.length := by
          cases old with
          | nil => simp [List.isEmpty] at h2
          | cons _ _ => simp
        rw [if_pos hcond, if_pos hcond]
        have hdl : ((c :: rest).drop old.length).length ≤ rest.length := by
          rw [List.length_drop]
          simp only [List.length_cons]
          omega
        exact ih m' _ (by omega) (by omega)
      · rw [if_neg hcond, if_neg hcond]
        rw [ih m' rest (by omega) (by omega)]

theorem findFirstOcc_some_contains {old : List Char} :
    ∀ {s a b}, findFirstOcc old s = some (a, b) → containsSub old s = true := by
  intro s
  induction s with
  | nil => intro a b h; simp [findFirstOcc] at h
  | cons c rest ih =>
    intro a b h
    simp only [findFirstOcc] at h
    simp only [containsSub, Bool.or_eq_true]
    by_cases hcond : (old.isPrefixOf (c :: rest) && !old.isEmpty) = true
    · obtain ⟨h1, _⟩ : old.isPrefixOf (c :: rest) = true ∧ !old.isEmpty = true := by
        simpa using hcond
      exact Or.inl h1
    · rw [if_neg hcond] at h
      cases hf : findFirstOcc old rest with
      | none => rw [hf] at h; simp at h
      | some p =>
        obtain ⟨a', b'⟩ := p
        exact Or.inr (ih hf)

theorem replaceMarkerAux_split {old : List Char} :
    ∀ n (s a b : List Char), s.length ≤ n →
      findFirstOcc old s = some (a, b) →
      replaceMarkerAux old n s = a ++ replaceMarker old b := by
  intro n
  induction n with
  | zero =>
    intro s a b hn h
    have : s = [] := List.length_eq_zero.mp (Nat.le_zero.mp hn)
    subst this
    simp [findFirstOcc] at h
  | succ n ih =>
    intro s a b hn h
    cases s with
    | nil => simp [findFirstOcc] at h
    | cons c rest =>
      simp only [List.length_cons] at hn
      simp only [findFirstOcc] at h
      simp only [replaceMarkerAux]
      by_cases hcond : (old.isPrefixOf (c :: rest) && !old.isEmpty) = true
      · rw [if_pos hcond] at h ⊢
        simp only [Option.some.injEq, Prod.mk.injEq] at h
        obtain ⟨rfl, rfl⟩ := h
        obtain ⟨h1, h2⟩ : old.isPrefixOf (c :: rest) = true ∧ !old.isEmpty = true := by
          simpa using hcond
        have hpos : 0 < old.length := by
          cases old with
          | nil => simp [List.isEmpty] at h2
          | cons _ _ => simp
        have hdl : ((c :: rest).drop old.length).length ≤ rest.length := by
          rw [List.length_drop]
          simp only [List.length_cons]
          omega
        rw [List.nil_append]
        unfold replaceMarker
        exact replaceMarkerAux_fuel_irrel old n _ _ (by omega) (le_refl _)
      · rw [if_neg hcond] at h ⊢
        cases hf : findFirstOcc old rest with
        | none => rw [hf] at h; simp at h
        | some p =>
          obtain ⟨a', b'⟩ := p
          simp only [hf, Option.some.injEq, Prod.mk.injEq] at h
          obtain ⟨rfl, rfl⟩ := h
          rw [ih rest a' b' (by omega) hf]
          simp

theorem replaceMarker_split {old s a b : List Char}
    (h : findFirstOcc old s = some (a, b)) :
    replaceMarker old s = a ++ replaceMarker old b :=
  replaceMarkerAux_split s.length s a b (le_refl _) h

/-! ### Placeholder-free texts and environment congruence -/

theorem hasPlaceholder_cons_false {c : Char} {rest : List Char}
    (h : hasPlaceholder (c :: rest) = false) :
    matchPlaceholder (c :: rest) = none ∧ hasPlaceholder rest = false := by
  cases hm : matchPlaceholder (c :: rest) with
  | some p =>
    exfalso
    simp [hasPlaceholder, hm] at h
  | none =>
    refine ⟨rfl, ?_⟩
    simpa [hasPlaceholder, hm] using h

theorem scanAux_no_placeholder :
    ∀ n (s : List Char), hasPlaceholder s = false →
      scanAux n s = s.map Tok.lit := by
  intro n
  induction n with
  | zero => intro s _; rfl
  | succ n ih =>
    intro s h
    cases s with
    | nil => rfl
    | cons c rest =>
      obtain ⟨hm, hr⟩ := hasPlaceholder_cons_false h
      simp only [scanAux, hm, List.map_cons]
      rw [ih rest hr]

theorem substitute_no_placeholder (env : Env) (s : List Char)
    (h : hasPlaceholder s = false) :
    substitute env s = (s, []) := by
  rw [substitute_eq_render]
  unfold scanTemplate
  rw [scanAux_no_placeholder s.length s h, renderAll_map_lit, diagsOf_map_lit]

theorem renderTok_congr {env1 env2 : Env}
    (h : ∀ nm, lookupEnv env1 nm = lookupEnv env2 nm) :
    ∀ t, renderTok env1 t = renderTok env2 t := by
  intro t
  cases t with
  | lit c => rfl
  | ph nm => simp only [renderTok, h nm]

theorem unresolvedName_congr {env1 env2 : Env}
    (h : ∀ nm, lookupEnv env1 nm = lookupEnv env2 nm) :
    ∀ t, unresolvedName env1 t = unresolvedName env2 t := by
  intro t
  cases t with
  | lit c => rfl
  | ph nm => simp only [unresolvedName, h nm]

theorem renderAll_congr {env1 env2 : Env}
    (h : ∀ nm, lookupEnv env1 nm = lookupEnv env2 nm) :
    ∀ ts, renderAll env1 ts = renderAll env2 ts := by
  intro ts
  induction ts with
  | nil => rfl
  | cons t rest ih => simp only [renderAll, renderTok_congr h t, ih]

theorem diagsOf_congr {env1 env2 : Env}
    (h : ∀ nm, lookupEnv env1 nm = lookupEnv env2 nm) :
    ∀ ts, diagsOf env1 ts = diagsOf env2 ts := by
  intro ts
  induction ts with
  | nil => rfl
  | cons t rest ih => simp only [diagsOf, unresolvedName_congr h t, ih]

/-! ### Claim theorems -/

/-- C1 counterexample: with no explicit output path and a template path
holding the `-template` marker twice, the derivation removes BOTH
occurrences, not only the first one as claimed: the result differs from
the path with only the first occurrence removed. -/
theorem derive_output_path_double_marker_counterexample :
    deriveOutputPath ("nginx-template-template.conf".toList) none
      = "nginx.conf".toList
    ∧ "nginx.conf".toList ≠ "nginx-template.conf".toList := by
  constructor
  · decide
  · decide

/-- C1 (amended): with no explicit output path, the derivation removes
EVERY left-to-right non-overlapping occurrence of the marker in a single
pass, not only the first: splitting the path at the first occurrence of
the marker, the derived path is the part before it followed by the
remainder with the marker-removal pass continued, for the `-template`
marker and for the `.template` fallback alike. -/
theorem derive_output_path_strips_all_occurrences (p a b : List Char) :
    (findFirstOcc hyphenMarker p = some (a, b) →
      deriveOutputPath p none = a ++ replaceMarker hyphenMarker b)
    ∧ (containsSub hyphenMarker p = false →
        findFirstOcc dotMarker p = some (a, b) →
        deriveOutputPath p none = a ++ replaceMarker dotMarker b) := by
  constructor
  · intro h
    have hc := findFirstOcc_some_contains h
    simp only [deriveOutputPath, hc, if_true]
    exact replaceMarker_split h
  · intro hc h
    simp only [deriveOutputPath]
    rw [if_neg (by simp [hc])]
    exact replaceMarker_split h

/-- C1 witness: the amended statement applied at a concrete doubled
marker. -/
theorem derive_output_path_strips_all_occurrences_witness :
    deriveOutputPath ("x-template-template.y".toList) none
      = "x".toList ++ replaceMarker hyphenMarker ("-template.y".toList) :=
  (derive_output_path_strips_all_occurrences ("x-template-template.y".toList)
    ("x".toList) ("-template.y".toList)).1 (by decide)

/-- C2 counterexample: for a file with two lines binding the same key
absent from the initial environment, the loader keeps the FIRST line's
value, not the last one as claimed. -/
theorem load_supp_duplicate_key_counterexample :
    lookupEnv (loadSupplementaryVariables [] ["K=1".toList, "K=2".toList])
        ("K".toList)
      = some ("1".toList)
    ∧ some ("1".toList) ≠ some ("2".toList) := by
  constructor
  · decide
  · decide

/-- C2 (amended): for a key not already present in the Environment
Variable Set, loading a supplementary file stores the value of the FIRST
non-comment, non-blank line that parses to that key (the first
occurrence wins, because after it is inserted the key counts as already
present). -/
theorem load_supp_first_occurrence_wins
    (env : Env) (lines : List (List Char)) (k : List Char)
    (h : lookupEnv env k = none) :
    lookupEnv (loadSupplementaryVariables env lines) k = firstFileValue lines k :=
  loadSupplementaryVariables_firstFileValue lines env k h

/-- C2 witness: the amended statement applied at a concrete duplicated
key. -/
theorem load_supp_first_occurrence_wins_witness :
    lookupEnv (loadSupplementaryVariables [] ["K=1".toList, "K=2".toList])
        ("K".toList)
      = firstFileValue ["K=1".toList, "K=2".toList] ("K".toList) :=
  load_supp_first_occurrence_wins [] ["K=1".toList, "K=2".toList]
    ("K".toList) rfl

/-- C3: a key already present in the Environment Variable Set before the
supplementary file is loaded keeps its value, whatever the file's lines
say about that key. -/
theorem env_precedence_preserved
    (env : Env) (lines : List (List Char)) (k v : List Char)
    (h : lookupEnv env k = some v) :
    lookupEnv (loadSupplementaryVariables env lines) k = some v :=
  loadSupplementaryVariables_preserves lines env h

/-- C3 witness: a pre-seeded key is not overwritten by a file line
binding the same key. -/
theorem env_precedence_preserved_witness :
    lookupEnv
        (loadSupplementaryVariables [("K".toList, "0".toList)] ["K=9".toList])
        ("K".toList)
      = some ("0".toList) :=
  env_precedence_preserved [("K".toList, "0".toList)] ["K=9".toList]
    ("K".toList) ("0".toList) (by decide)

/-- C4: the substitution renders the scanned tokens one by one and its
diagnostic stream is exactly one entry, the variable name, per
unresolvable placeholder occurrence in scan order; an unresolvable
placeholder token renders to its own literal text unchanged, and the
whole template is still rendered (an output is produced). -/
theorem substitute_missing_var_behavior (env : Env) (s : List Char) :
    (substitute env s).1 = renderAll env (scanTemplate s)
    ∧ (substitute env s).2 = diagsOf env (scanTemplate s)
    ∧ ∀ nm, lookupEnv env nm = none →
        renderTok env (Tok.ph nm) = phTextL nm
        ∧ unresolvedName env (Tok.ph nm) = some nm := by
  refine ⟨?_, ?_, ?_⟩
  · rw [substitute_eq_render]
  · rw [substitute_eq_render]
  · intro nm h
    exact ⟨by simp [renderTok, h], by simp [unresolvedName, h]⟩

/-- C4 witness: the unresolved-placeholder rendering clauses at a
concrete missing name. -/
theorem substitute_missing_var_behavior_witness :
    renderTok [] (Tok.ph ("HOST".toList)) = phTextL ("HOST".toList)
    ∧ unresolvedName [] (Tok.ph ("HOST".toList)) = some ("HOST".toList) :=
  (substitute_missing_var_behavior [] []).2.2 ("HOST".toList) rfl

/-- C5: a resolvable placeholder occurrence is replaced, delimiters
included, by the looked-up value verbatim; this holds for every
occurrence; and the pass is single and left-to-right: after a match the
scan continues on the text after the match, and the substituted value is
spliced in as-is, never re-scanned (the value `v` is arbitrary and may
itself contain placeholder text). -/
theorem substitute_resolved_var_behavior
    (env : Env) (s nm v rest : List Char)
    (hnm : validName nm = true) (hv : lookupEnv env nm = some v) :
    (substitute env s).1 = renderAll env (scanTemplate s)
    ∧ substitute env (phTextL nm ++ rest)
        = (v ++ (substitute env rest).1, (substitute env rest).2)
    ∧ (substitute env (phTextL nm)).1 = v
    ∧ (substitute env (phTextL nm ++ phTextL nm)).1 = v ++ v := by
  have hstep : ∀ r : List Char, substitute env (phTextL nm ++ r)
      = (v ++ (substitute env r).1, (substitute env r).2) := by
    intro r
    rw [substitute_eq_render, substitute_eq_render,
      scanTemplate_of_match (matchPlaceholder_phTextL hnm r)]
    simp [renderAll, diagsOf, renderTok, unresolvedName, hv]
  have h0 : substitute env ([] : List Char) = ([], []) := rfl
  have h1 : substitute env (phTextL nm) = (v, []) := by
    have hh := hstep []
    rw [List.append_nil] at hh
    rw [hh, h0]
    simp
  refine ⟨by rw [substitute_eq_render], hstep rest, by rw [h1], ?_⟩
  rw [hstep (phTextL nm), h1]

/-- C5 witness: a concrete resolvable placeholder is replaced by its
value. -/
theorem substitute_resolved_var_behavior_witness :
    (substitute [("HOST".toList, "localhost".toList)]
        (phTextL ("HOST".toList))).1
      = "localhost".toList :=
  (substitute_resolved_var_behavior [("HOST".toList, "localhost".toList)]
    [] ("HOST".toList) ("localhost".toList) [] (by decide) (by decide)).2.2.1

/-- C6: the supplementary-file parser splits a line on the FIRST equals
sign only: when the stripped line is a key without any equals sign
followed by an equals sign and an arbitrary remainder, the parse yields
that key and the whole remainder, further equals signs included. -/
theorem split_first_eq_correct (l k v : List Char)
    (hl : pyStrip l = k ++ '=' :: v) (hk : '=' ∉ k)
    (hc : startsWithHash (k ++ '=' :: v) = false) :
    parseLine l = some (k, v) := by
  have hne : (k ++ '=' :: v).isEmpty = false := by
    cases k <;> rfl
  simp only [parseLine, hl, hne, hc, Bool.false_eq_true, if_false]
  exact splitFirstEq_append v hk

/-- C6 witness: the line KEY=a=b=c parses to key KEY and value a=b=c. -/
theorem split_first_eq_correct_witness :
    parseLine ("KEY=a=b=c".toList) = some ("KEY".toList, "a=b=c".toList) :=
  split_first_eq_correct ("KEY=a=b=c".toList) ("KEY".toList) ("a=b=c".toList)
    (by decide) (by decide) (by decide)

/-- C7: where no well-formed placeholder match starts, the character is
passed through verbatim and scanning continues on the remainder as plain
text; in particular the malformed samples with a lowercase name, inner
whitespace, or a leading digit are left unchanged with no diagnostics,
whatever the environment holds. -/
theorem malformed_placeholder_literal (env : Env) :
    (∀ (c : Char) (rest : List Char), matchPlaceholder (c :: rest) = none →
      substitute env (c :: rest)
        = (c :: (substitute env rest).1, (substitute env rest).2))
    ∧ substitute env exLower = (exLower, [])
    ∧ substitute env exSpaces = (exSpaces, [])
    ∧ substitute env exDigit = (exDigit, []) := by
  refine ⟨?_, ?_, ?_, ?_⟩
  · intro c rest h
    show substituteAux env (c :: rest).length (c :: rest) = _
    simp only [List.length_cons, substituteAux, h]
    rfl
  · exact substitute_no_placeholder env exLower (by decide)
  · exact substitute_no_placeholder env exSpaces (by decide)
  · exact substitute_no_placeholder env exDigit (by decide)

/-- C7 witness: the pass-through clause at a concrete non-placeholder
position. -/
theorem malformed_placeholder_literal_witness :
    substitute [] ['a']
      = ('a' :: (substitute [] []).1, (substitute [] []).2) :=
  (malformed_placeholder_literal []).1 'a' [] rfl

/-- C8: a template in which no position starts a match of the
placeholder pattern is rendered to itself, byte for byte, with no
diagnostics. -/
theorem no_placeholder_identity (env : Env) (s : List Char)
    (h : hasPlaceholder s = false) :
    substitute env s = (s, []) :=
  substitute_no_placeholder env s h

/-- C8 witness: a concrete placeholder-free template is returned
unchanged. -/
theorem no_placeholder_identity_witness :
    substitute [] ("server: 80".toList) = ("server: 80".toList, []) :=
  no_placeholder_identity [] ("server: 80".toList) (by decide)

/-- C9: substitution is deterministic and free of side effects beyond
its diagnostics: two runs on equal template texts whose Environment
Variable Sets resolve every name identically produce identical rendered
text and diagnostics, hence also outputs of equal length. -/
theorem substitute_deterministic (env1 env2 : Env) (s1 s2 : List Char)
    (hs : s1 = s2) (henv : ∀ nm, lookupEnv env1 nm = lookupEnv env2 nm) :
    substitute env1 s1 = substitute env2 s2
    ∧ (substitute env1 s1).1.length = (substitute env2 s2).1.length := by
  subst hs
  have h : substitute env1 s1 = substitute env2 s1 := by
    rw [substitute_eq_render, substitute_eq_render,
      renderAll_congr henv, diagsOf_congr henv]
  exact ⟨h, by rw [h]⟩

/-- C9 witness: the determinism statement at concrete equal inputs. -/
theorem substitute_deterministic_witness :
    substitute [("A".toList, "1".toList)] ("x".toList)
      = substitute [("A".toList, "1".toList)] ("x".toList) :=
  (substitute_deterministic [("A".toList, "1".toList)]
    [("A".toList, "1".toList)] ("x".toList) ("x".toList) rfl
    (fun _ => rfl)).1

/-- C10: a line that after stripping is non-empty, is not a comment, and
holds no equals sign is skipped silently: the Environment Variable Set
is returned unchanged (and the loader's loop body neither raises nor
prints for such a line). -/
theorem line_without_eq_skipped (env : Env) (line : List Char)
    (h1 : (pyStrip line).isEmpty = false)
    (h2 : startsWithHash (pyStrip line) = false)
    (h3 : '=' ∉ pyStrip line) :
    processLine env line = env := by
  have hp : parseLine line = none := by
    simp only [parseLine, h1, h2, Bool.false_eq_true, if_false]
    exact splitFirstEq_of_not_mem h3
  unfold processLine
  rw [hp]

/-- C10 witness: a concrete equals-free line leaves the environment
unchanged. -/
theorem line_without_eq_skipped_witness :
    processLine [] ("noequals".toList) = [] :=
  line_without_eq_skipped [] ("noequals".toList)
    (by decide) (by decide) (by decide)
